import Mathlib

/-!
Verification of the byte-utility codec in
src/clients/src/common/utils/byte_utils.rs: the variable-length integer
(varint) codec with zig-zag signed mapping and the fixed-width big-endian
32-bit accessors.  Byte streams are modelled as lists of naturals (each
element a byte value), machine integers as naturals reduced modulo 2^32 or
2^64 where the Rust code truncates, and i32 values as integers in
[-2^31, 2^31) with an explicit two's-complement bit-pattern conversion.
-/

namespace Rafka

/-- Error type of the varint codec, mirroring enum VarintError
(Io, VarintTooLong, UnterminatedVarint). -/
inductive VarintError where
  | ioErr
  | varintTooLong
  | unterminatedVarint
deriving DecidableEq

/-- Loop body of read_unsigned_varint.  The Rust source iterates
for i in 0..5: read one byte (an exhausted reader propagates an I/O error);
if i == 4 and the continuation bit (0x80) is set, fail with VarintTooLong;
OR the low 7 bits into the accumulator at the current shift (a u32 shift
truncates modulo 2^32); if the continuation bit is clear, return the
accumulator; otherwise shift += 7 and continue.  Falling out of the loop
yields UnterminatedVarint (dead code in the source, kept for fidelity). -/
def read_unsigned_varint_go : List Nat → Nat → Nat → Nat → Except VarintError Nat
  | [], _, _, _ => .error .ioErr
  | byte :: rest, i, result, shift =>
    if i = 4 ∧ byte &&& 128 ≠ 0 then .error .varintTooLong
    else if byte &&& 128 = 0 then .ok (result ||| (((byte &&& 127) <<< shift) % 2 ^ 32))
    else if i + 1 < 5 then
      read_unsigned_varint_go rest (i + 1)
        (result ||| (((byte &&& 127) <<< shift) % 2 ^ 32)) (shift + 7)
    else .error .unterminatedVarint

/-- read_unsigned_varint: decode an unsigned 32-bit varint from the front
of the byte stream. -/
def read_unsigned_varint (input : List Nat) : Except VarintError Nat :=
  read_unsigned_varint_go input 0 0 0

/-- Loop body of read_unsigned_varint64: same scheme with 10 iterations,
the VarintTooLong check on byte index 9, and u64 (mod 2^64) accumulation. -/
def read_unsigned_varint64_go : List Nat → Nat → Nat → Nat → Except VarintError Nat
  | [], _, _, _ => .error .ioErr
  | byte :: rest, i, result, shift =>
    if i = 9 ∧ byte &&& 128 ≠ 0 then .error .varintTooLong
    else if byte &&& 128 = 0 then .ok (result ||| (((byte &&& 127) <<< shift) % 2 ^ 64))
    else if i + 1 < 10 then
      read_unsigned_varint64_go rest (i + 1)
        (result ||| (((byte &&& 127) <<< shift) % 2 ^ 64)) (shift + 7)
    else .error .unterminatedVarint

/-- read_unsigned_varint64: decode an unsigned 64-bit varint. -/
def read_unsigned_varint64 (input : List Nat) : Except VarintError Nat :=
  read_unsigned_varint64_go input 0 0 0

/-- write_unsigned_varint: the nested-if encoder from the source.  Each
mask !((1 << k) - 1) on u32 is the natural number 2^32 - 2^k; a cast
`as u8` is a reduction modulo 256. -/
def write_unsigned_varint (value : Nat) : List Nat :=
  if value &&& (2 ^ 32 - 2 ^ 7) = 0 then [value % 256]
  else
    (((value &&& 127) % 256) ||| 128) ::
      (if value &&& (2 ^ 32 - 2 ^ 14) = 0 then [((value >>> 7) &&& 255) % 256]
       else ((((value >>> 7) &&& 127) ||| 128) % 256) ::
         (if value &&& (2 ^ 32 - 2 ^ 21) = 0 then [((value >>> 14) &&& 255) % 256]
          else ((((value >>> 14) &&& 127) ||| 128) % 256) ::
            (if value &&& (2 ^ 32 - 2 ^ 28) = 0 then [((value >>> 21) &&& 255) % 256]
             else [(((value >>> 21) &&& 127) ||| 128) % 256,
                   ((value >>> 28) &&& 255) % 256])))

/-- write_unsigned_varint64: the while-loop encoder.  While value >= 0x80,
emit (value as u8 & 0x7f) | 0x80 and shift value right by 7; finally emit
value as u8. -/
def write_unsigned_varint64 (value : Nat) : List Nat :=
  if h : 128 ≤ value then
    (((value % 256) &&& 127) ||| 128) :: write_unsigned_varint64 (value >>> 7)
  else [value % 256]
termination_by value
decreasing_by
  simp only [Nat.shiftRight_eq_div_pow]
  exact Nat.div_lt_self (by omega) (by norm_num)

/-- Two's-complement 32-bit pattern of an integer (the u32 with the same
bits as the i32 v, for v in the i32 range). -/
def toN32 (v : Int) : Nat := (v % (2 ^ 32 : Int)).toNat

/-- Reinterpret a u32 bit pattern as an i32 value. -/
def toI32 (n : Nat) : Int := if n < 2 ^ 31 then (n : Int) else (n : Int) - 2 ^ 32

/-- The zig-zag encoding expression of write_varint:
((value << 1) ^ (value >> 31)) as u32, computed on 32-bit two's-complement
patterns.  An i32 left shift truncates modulo 2^32; the arithmetic right
shift by 31 yields the all-ones pattern for negative inputs and zero
otherwise. -/
def zigzag_encode (value : Int) : Nat :=
  ((toN32 value <<< 1) % 2 ^ 32) ^^^ (if value < 0 then 2 ^ 32 - 1 else 0)

/-- write_varint: zig-zag encode, then write as an unsigned varint. -/
def write_varint (value : Int) : List Nat :=
  write_unsigned_varint (zigzag_encode value)

/-- The zig-zag decoding expression of read_varint:
(u >> 1) as i32 ^ (-((u & 1) as i32)), computed on bit patterns:
-(0) has pattern 0 and -(1) has the all-ones pattern. -/
def zigzag_decode (u : Nat) : Int :=
  toI32 ((u >>> 1) ^^^ (if u &&& 1 = 0 then 0 else 2 ^ 32 - 1))

/-- read_varint: read an unsigned varint, propagate its errors, then
zig-zag decode. -/
def read_varint (input : List Nat) : Except VarintError Int :=
  (read_unsigned_varint input).map zigzag_decode

/-- Outcome of a Rust function that either returns a value or panics
(aborts the program); used for the fixed-width accessors, which call
unwrap / slice-index and are documented to panic on failure. -/
inductive FixedOutcome (α : Type) where
  | ok (val : α)
  | panic
deriving DecidableEq

/-- u32::from_be_bytes on four bytes. -/
def u32_from_be_bytes (b0 b1 b2 b3 : Nat) : Nat :=
  (b0 % 256) * 2 ^ 24 + (b1 % 256) * 2 ^ 16 + (b2 % 256) * 2 ^ 8 + b3 % 256

/-- u32::to_be_bytes. -/
def u32_to_be_bytes (v : Nat) : List Nat :=
  [v / 2 ^ 24 % 256, v / 2 ^ 16 % 256, v / 2 ^ 8 % 256, v % 256]

/-- read_unsigned_int: read_exact of 4 bytes from the sequential source
followed by unwrap (which panics when fewer than 4 bytes are available),
then u32::from_be_bytes.  Returns the value and the remaining stream. -/
def read_unsigned_int (buffer : List Nat) : FixedOutcome (Nat × List Nat) :=
  match buffer with
  | b0 :: b1 :: b2 :: b3 :: rest => .ok (u32_from_be_bytes b0 b1 b2 b3, rest)
  | _ => .panic

/-- read_unsigned_int_at: buffer[index..index + 4] (which panics when the
range is out of bounds) converted through u32::from_be_bytes. -/
def read_unsigned_int_at (buffer : List Nat) (index : Nat) : FixedOutcome Nat :=
  if index + 4 ≤ buffer.length then
    .ok (u32_from_be_bytes (buffer.getD index 0) (buffer.getD (index + 1) 0)
      (buffer.getD (index + 2) 0) (buffer.getD (index + 3) 0))
  else .panic

/-- write_unsigned_int_at: copy value.to_be_bytes into
buffer[index..index + 4], panicking when the range is out of bounds. -/
def write_unsigned_int_at (buffer : List Nat) (index : Nat) (value : Nat) :
    FixedOutcome (List Nat) :=
  if index + 4 ≤ buffer.length then
    .ok (buffer.take index ++ u32_to_be_bytes (value % 2 ^ 32) ++ buffer.drop (index + 4))
  else .panic

/-- A byte list following the continuation-bit protocol: nonempty, every
byte before the last has the continuation bit set (and is a byte value),
and the last byte has the continuation bit clear. -/
def isChain : List Nat → Bool
  | [] => false
  | [b] => b < 128
  | b :: rest => 128 ≤ b && b < 256 && isChain rest

/-- The number spelled out by the 7-bit payload groups of a byte list,
least-significant group first. -/
def varintPayload : List Nat → Nat
  | [] => 0
  | b :: rest => b % 128 + 128 * varintPayload rest

example : read_unsigned_varint [172, 2] = .ok 300 := rfl
example : write_unsigned_varint 300 = [172, 2] := by decide
example : write_unsigned_varint64 300 = [172, 2] := by
  simp [write_unsigned_varint64]
  decide
example : write_varint (-1) = [1] := by decide
example : write_varint 1 = [2] := by decide
example : read_varint [1] = .ok (-1) := rfl
example : read_unsigned_varint [128, 0] = .ok 0 := rfl
example : read_unsigned_varint [128, 128, 128, 128, 16] = .ok 0 := rfl
example : read_unsigned_varint [255, 255, 255, 255, 255] = .error .varintTooLong := rfl
example : read_unsigned_varint [255, 255] = .error .ioErr := rfl
example : read_unsigned_int [] = .panic := rfl
example : varintPayload [128, 128, 128, 128, 16] = 2 ^ 32 := by decide

/-! ### Bit-manipulation helper lemmas -/

lemma and_127_eq_mod (b : Nat) : b &&& 127 = b % 128 := by
  have h : (127 : Nat) = 2 ^ 7 - 1 := by norm_num
  have h2 : (128 : Nat) = 2 ^ 7 := by norm_num
  rw [h, h2, Nat.and_pow_two_sub_one_eq_mod]

lemma and_255_eq_mod (b : Nat) : b &&& 255 = b % 256 := by
  have h : (255 : Nat) = 2 ^ 8 - 1 := by norm_num
  have h2 : (256 : Nat) = 2 ^ 8 := by norm_num
  rw [h, h2, Nat.and_pow_two_sub_one_eq_mod]

lemma and_128_of_lt {b : Nat} (h : b < 128) : b &&& 128 = 0 := by
  have h2 : b < 2 ^ 7 := by rw [show (2 : Nat) ^ 7 = 128 from by norm_num]; exact h
  rw [show (128 : Nat) = 2 ^ 7 from by norm_num, Nat.and_two_pow,
    Nat.testBit_lt_two_pow h2]
  rfl

lemma and_128_of_ge {b : Nat} (h1 : 128 ≤ b) (h2 : b < 256) : b &&& 128 = 128 := by
  rw [show (128 : Nat) = 2 ^ 7 from by norm_num, Nat.and_two_pow,
    Nat.testBit_to_div_mod]
  simp
  omega

lemma lor_eq_add {x z n : Nat} (h : x < 2 ^ n) : x ||| 2 ^ n * z = x + 2 ^ n * z := by
  rw [Nat.lor_comm, ← Nat.mul_add_lt_is_or h z, Nat.add_comm]

lemma lor_128_eq_add {x : Nat} (h : x < 128) : x ||| 128 = x + 128 := by
  have h2 : x < 2 ^ 7 := by rw [show (2 : Nat) ^ 7 = 128 from by norm_num]; exact h
  have := lor_eq_add (z := 1) h2
  simpa using this

lemma xor_allones {x n : Nat} (h : x < 2 ^ n) : x ^^^ (2 ^ n - 1) = 2 ^ n - 1 - x := by
  apply Nat.eq_of_testBit_eq
  intro j
  have hx1 : 2 ^ n - 1 - x = 2 ^ n - (x + 1) := by omega
  rw [hx1, Nat.testBit_two_pow_sub_succ h]
  simp only [Nat.testBit_xor, Nat.testBit_two_pow_sub_one]
  by_cases hj : j < n
  · simp [hj]
  · have hxj : x.testBit j = false :=
      Nat.testBit_lt_two_pow
        (lt_of_lt_of_le h (Nat.pow_le_pow_right (by norm_num) (by omega)))
    simp [hj, hxj]

lemma and_himask_eq_zero_iff {v k : Nat} (hk : k ≤ 32) (hv : v < 2 ^ 32) :
    v &&& (2 ^ 32 - 2 ^ k) = 0 ↔ v < 2 ^ k := by
  have h32 : (2 : Nat) ^ 32 = 2 ^ (32 - k) * 2 ^ k := by
    rw [← pow_add]; congr 1; omega
  have hmask : (2 : Nat) ^ 32 - 2 ^ k = (2 ^ (32 - k) - 1) <<< k := by
    rw [Nat.shiftLeft_eq, Nat.sub_mul, one_mul, ← h32]
  have hbit : ∀ j, (2 ^ 32 - 2 ^ k : Nat).testBit j = (decide (k ≤ j) && decide (j < 32)) := by
    intro j
    rw [hmask, Nat.testBit_shiftLeft, Nat.testBit_two_pow_sub_one]
    by_cases hkj : k ≤ j
    · by_cases hj32 : j < 32 <;> simp [hkj, hj32] <;> omega
    · simp [hkj, Nat.lt_of_not_le]
  constructor
  · intro h0
    refine Nat.lt_pow_two_of_testBit v ?_
    intro j hj
    by_cases hj32 : j < 32
    · have hb : (2 ^ 32 - 2 ^ k : Nat).testBit j = true := by
        rw [hbit]; simp [hj, hj32]
      have h1 := congrArg (fun t => Nat.testBit t j) h0
      simp only [Nat.testBit_and, hb, Bool.and_true, Nat.zero_testBit] at h1
      exact h1
    · exact Nat.testBit_lt_two_pow
        (lt_of_lt_of_le hv (Nat.pow_le_pow_right (by norm_num) (by omega)))
  · intro hvk
    apply Nat.eq_of_testBit_eq
    intro j
    rw [Nat.testBit_and, Nat.zero_testBit, hbit]
    by_cases hjk : j < k
    · simp [hjk, Nat.not_le_of_lt hjk]
    · have hvj : v.testBit j = false :=
        Nat.testBit_lt_two_pow
          (lt_of_lt_of_le hvk (Nat.pow_le_pow_right (by norm_num) (by omega)))
      simp [hvj]

/-! ### Unfolding lemmas for the 64-bit (while-loop) encoder -/

lemma write64_small {v : Nat} (h : v < 128) : write_unsigned_varint64 v = [v] := by
  rw [write_unsigned_varint64, dif_neg (by omega), Nat.mod_eq_of_lt (by omega)]

lemma write64_step {v : Nat} (h : 128 ≤ v) :
    write_unsigned_varint64 v =
      (((v % 256) &&& 127) ||| 128) :: write_unsigned_varint64 (v >>> 7) := by
  conv_lhs => rw [write_unsigned_varint64]
  rw [dif_pos h]

lemma write64_ne_nil (v : Nat) : write_unsigned_varint64 v ≠ [] := by
  by_cases h : 128 ≤ v
  · rw [write64_step h]; simp
  · rw [write64_small (by omega)]; simp

/-- The while-loop encoder always emits a well-formed continuation chain. -/
lemma write64_isChain (v : Nat) : isChain (write_unsigned_varint64 v) = true := by
  induction v using Nat.strong_induction_on with
  | _ v ih =>
    by_cases h : 128 ≤ v
    · rw [write64_step h]
      have hrec := ih (v >>> 7) (by
        rw [Nat.shiftRight_eq_div_pow]
        exact Nat.div_lt_self (by omega) (by norm_num))
      obtain ⟨b, rest, hbr⟩ :
          ∃ b rest, write_unsigned_varint64 (v >>> 7) = b :: rest := by
        rcases hw : write_unsigned_varint64 (v >>> 7) with _ | ⟨b, rest⟩
        · exact absurd hw (write64_ne_nil _)
        · exact ⟨b, rest, rfl⟩
      have hbyte : ((v % 256) &&& 127) ||| 128 = ((v % 256) &&& 127) + 128 :=
        lor_128_eq_add (by rw [and_127_eq_mod]; omega)
      rw [hbr]
      rw [hbr] at hrec
      show (decide (128 ≤ ((v % 256) &&& 127 ||| 128)) &&
        decide (((v % 256) &&& 127 ||| 128) < 256) && isChain (b :: rest)) = true
      rw [hbyte, and_127_eq_mod, hrec]
      simp
      omega
    · rw [write64_small (by omega)]
      show decide (v < 128) = true
      simp
      omega

/-- The payload spelled out by the while-loop encoder is the encoded value. -/
lemma write64_payload (v : Nat) : varintPayload (write_unsigned_varint64 v) = v := by
  induction v using Nat.strong_induction_on with
  | _ v ih =>
    by_cases h : 128 ≤ v
    · rw [write64_step h]
      have hrec := ih (v >>> 7) (by
        rw [Nat.shiftRight_eq_div_pow]
        exact Nat.div_lt_self (by omega) (by norm_num))
      have hbyte : ((v % 256) &&& 127) ||| 128 = ((v % 256) &&& 127) + 128 :=
        lor_128_eq_add (by rw [and_127_eq_mod]; omega)
      show ((v % 256) &&& 127 ||| 128) % 128 +
        128 * varintPayload (write_unsigned_varint64 (v >>> 7)) = v
      rw [hrec, hbyte, and_127_eq_mod, Nat.shiftRight_eq_div_pow]
      have h128 : (2 : Nat) ^ 7 = 128 := by norm_num
      rw [h128]
      omega
    · rw [write64_small (by omega)]
      show v % 128 + 128 * varintPayload [] = v
      show v % 128 + 128 * 0 = v
      omega

/-- Length of the while-loop encoding: it always fits the value
(v < 2^(7 len)) and is minimal among positive byte counts that fit. -/
lemma write64_length_fits (v : Nat) : v < 2 ^ (7 * (write_unsigned_varint64 v).length) := by
  induction v using Nat.strong_induction_on with
  | _ v ih =>
    by_cases h : 128 ≤ v
    · rw [write64_step h]
      have hrec := ih (v >>> 7) (by
        rw [Nat.shiftRight_eq_div_pow]
        exact Nat.div_lt_self (by omega) (by norm_num))
      rw [List.length_cons]
      set L := (write_unsigned_varint64 (v >>> 7)).length with hL
      rw [Nat.mul_add, Nat.mul_one, pow_add]
      have h128 : (2 : Nat) ^ 7 = 128 := by norm_num
      rw [h128]
      have hdd : v >>> 7 = v / 128 := by rw [Nat.shiftRight_eq_div_pow, h128]
      rw [hdd] at hrec
      omega
    · rw [write64_small (by omega)]
      show v < 2 ^ (7 * 1)
      norm_num
      omega

lemma write64_length_pos (v : Nat) : 0 < (write_unsigned_varint64 v).length := by
  by_cases h : 128 ≤ v
  · rw [write64_step h]; simp
  · rw [write64_small (by omega)]; simp

lemma write64_length_min (v : Nat) :
    ∀ k, 0 < k → v < 2 ^ (7 * k) → (write_unsigned_varint64 v).length ≤ k := by
  induction v using Nat.strong_induction_on with
  | _ v ih =>
    intro k hk hvk
    by_cases h : 128 ≤ v
    · rw [write64_step h]
      have hk2 : 2 ≤ k := by
        by_contra hcon
        have hk1 : k = 1 := by omega
        rw [hk1] at hvk
        norm_num at hvk
        omega
      have hrec := ih (v >>> 7) (by
        rw [Nat.shiftRight_eq_div_pow]
        exact Nat.div_lt_self (by omega) (by norm_num)) (k - 1) (by omega)
      rw [List.length_cons]
      have hdiv : v >>> 7 < 2 ^ (7 * (k - 1)) := by
        have h128 : (2 : Nat) ^ 7 = 128 := by norm_num
        rw [Nat.shiftRight_eq_div_pow, h128]
        have hsplit : (7 : Nat) * k = 7 * (k - 1) + 7 := by omega
        rw [hsplit, pow_add, h128] at hvk
        omega
      have := hrec hdiv
      omega
    · rw [write64_small (by omega)]
      simpa using hk

/-! ### The nested-if 32-bit encoder agrees with the while-loop encoder -/

lemma mod_lor_128 (x : Nat) : x % 128 ||| 128 = x % 128 + 128 :=
  lor_128_eq_add (Nat.mod_lt _ (by norm_num))

lemma mod128_mod256 (x : Nat) : x % 128 % 256 = x % 128 := Nat.mod_eq_of_lt (by omega)

lemma mod256_mod256 (x : Nat) : x % 256 % 256 = x % 256 := Nat.mod_eq_of_lt (by omega)

lemma shift7_eq (x : Nat) : x >>> 7 = x / 128 := by
  rw [Nat.shiftRight_eq_div_pow]

lemma shift14_eq (x : Nat) : x >>> 14 = x / 16384 := by
  rw [Nat.shiftRight_eq_div_pow]

lemma shift21_eq (x : Nat) : x >>> 21 = x / 2097152 := by
  rw [Nat.shiftRight_eq_div_pow]

lemma shift28_eq (x : Nat) : x >>> 28 = x / 268435456 := by
  rw [Nat.shiftRight_eq_div_pow]

lemma write32_eq_write64 {v : Nat} (hv : v < 2 ^ 32) :
    write_unsigned_varint v = write_unsigned_varint64 v := by
  have h7 := and_himask_eq_zero_iff (k := 7) (by norm_num) hv
  have h14 := and_himask_eq_zero_iff (k := 14) (by norm_num) hv
  have h21 := and_himask_eq_zero_iff (k := 21) (by norm_num) hv
  have h28 := and_himask_eq_zero_iff (k := 28) (by norm_num) hv
  by_cases c7 : v < 2 ^ 7
  · simp only [write_unsigned_varint]
    rw [if_pos (h7.mpr c7), write64_small (by omega)]
    simp only [List.cons.injEq, and_true]
    omega
  · by_cases c14 : v < 2 ^ 14
    · simp only [write_unsigned_varint]
      rw [if_neg (fun hm => c7 (h7.mp hm)), if_pos (h14.mpr c14),
        write64_step (show 128 ≤ v by omega),
        write64_small (show v >>> 7 < 128 by simp only [shift7_eq]; omega)]
      simp only [and_127_eq_mod, and_255_eq_mod, shift7_eq, mod128_mod256,
        mod256_mod256, mod_lor_128, List.cons.injEq, and_true]
      omega
    · by_cases c21 : v < 2 ^ 21
      · simp only [write_unsigned_varint]
        rw [if_neg (fun hm => c7 (h7.mp hm)), if_neg (fun hm => c14 (h14.mp hm)),
          if_pos (h21.mpr c21),
          write64_step (show 128 ≤ v by omega),
          write64_step (show 128 ≤ v >>> 7 by simp only [shift7_eq]; omega),
          write64_small (show (v >>> 7) >>> 7 < 128 by
            simp only [shift7_eq, Nat.div_div_eq_div_mul]; omega)]
        simp only [and_127_eq_mod, and_255_eq_mod, shift7_eq, shift14_eq,
          Nat.div_div_eq_div_mul, mod128_mod256, mod256_mod256, mod_lor_128,
          List.cons.injEq, and_true]
        omega
      · by_cases c28 : v < 2 ^ 28
        · simp only [write_unsigned_varint]
          rw [if_neg (fun hm => c7 (h7.mp hm)), if_neg (fun hm => c14 (h14.mp hm)),
            if_neg (fun hm => c21 (h21.mp hm)), if_pos (h28.mpr c28),
            write64_step (show 128 ≤ v by omega),
            write64_step (show 128 ≤ v >>> 7 by simp only [shift7_eq]; omega),
            write64_step (show 128 ≤ (v >>> 7) >>> 7 by
              simp only [shift7_eq, Nat.div_div_eq_div_mul]; omega),
            write64_small (show ((v >>> 7) >>> 7) >>> 7 < 128 by
              simp only [shift7_eq, Nat.div_div_eq_div_mul]; omega)]
          simp only [and_127_eq_mod, and_255_eq_mod, shift7_eq, shift14_eq, shift21_eq,
            Nat.div_div_eq_div_mul, mod128_mod256, mod256_mod256, mod_lor_128,
            List.cons.injEq, and_true]
          omega
        · simp only [write_unsigned_varint]
          rw [if_neg (fun hm => c7 (h7.mp hm)), if_neg (fun hm => c14 (h14.mp hm)),
            if_neg (fun hm => c21 (h21.mp hm)), if_neg (fun hm => c28 (h28.mp hm)),
            write64_step (show 128 ≤ v by omega),
            write64_step (show 128 ≤ v >>> 7 by simp only [shift7_eq]; omega),
            write64_step (show 128 ≤ (v >>> 7) >>> 7 by
              simp only [shift7_eq, Nat.div_div_eq_div_mul]; omega),
            write64_step (show 128 ≤ ((v >>> 7) >>> 7) >>> 7 by
              simp only [shift7_eq, Nat.div_div_eq_div_mul]; omega),
            write64_small (show (((v >>> 7) >>> 7) >>> 7) >>> 7 < 128 by
              simp only [shift7_eq, Nat.div_div_eq_div_mul]; omega)]
          simp only [and_127_eq_mod, and_255_eq_mod, shift7_eq, shift14_eq, shift21_eq,
            shift28_eq, Nat.div_div_eq_div_mul, mod128_mod256, mod256_mod256, mod_lor_128,
            List.cons.injEq, and_true]
          omega

/-! ### Master lemma: the 32-bit decoder on well-formed chains -/

lemma step_value {b i result : Nat} (hi : i ≤ 4) (hres : result < 2 ^ (7 * i)) :
    result ||| (((b &&& 127) <<< (7 * i)) % 2 ^ 32) =
      result + b % 128 % 2 ^ (32 - 7 * i) * 2 ^ (7 * i) := by
  have hsplit : (2 : Nat) ^ 32 = 2 ^ (7 * i) * 2 ^ (32 - 7 * i) := by
    rw [← pow_add]; congr 1; omega
  rw [and_127_eq_mod, Nat.shiftLeft_eq, hsplit,
    mul_comm (b % 128) ((2 : Nat) ^ (7 * i)), Nat.mul_mod_mul_left, lor_eq_add hres]
  ring

lemma mod_mul_split {x p m : Nat} (hx : x < 128) (hm : 0 < m) :
    (x + 128 * p) % (128 * m) = x + 128 * (p % m) := by
  have h1 : x + 128 * p = (x + 128 * (p % m)) + (128 * m) * (p / m) := by
    calc x + 128 * p = x + 128 * (m * (p / m) + p % m) := by rw [Nat.div_add_mod]
    _ = (x + 128 * (p % m)) + (128 * m) * (p / m) := by ring
  rw [h1, Nat.add_mul_mod_self_left]
  have hpm : p % m < m := Nat.mod_lt _ hm
  exact Nat.mod_eq_of_lt (by omega)

lemma ruv_go_cons (b : Nat) (rest : List Nat) (i result shift : Nat) :
    read_unsigned_varint_go (b :: rest) i result shift =
      if i = 4 ∧ b &&& 128 ≠ 0 then .error .varintTooLong
      else if b &&& 128 = 0 then .ok (result ||| (((b &&& 127) <<< shift) % 2 ^ 32))
      else if i + 1 < 5 then
        read_unsigned_varint_go rest (i + 1)
          (result ||| (((b &&& 127) <<< shift) % 2 ^ 32)) (shift + 7)
      else .error .unterminatedVarint := rfl

lemma ruv64_go_cons (b : Nat) (rest : List Nat) (i result shift : Nat) :
    read_unsigned_varint64_go (b :: rest) i result shift =
      if i = 9 ∧ b &&& 128 ≠ 0 then .error .varintTooLong
      else if b &&& 128 = 0 then .ok (result ||| (((b &&& 127) <<< shift) % 2 ^ 64))
      else if i + 1 < 10 then
        read_unsigned_varint64_go rest (i + 1)
          (result ||| (((b &&& 127) <<< shift) % 2 ^ 64)) (shift + 7)
      else .error .unterminatedVarint := rfl

lemma ruv_go_ok (bs : List Nat) : ∀ (i result : Nat),
    isChain bs = true → bs.length + i ≤ 5 → result < 2 ^ (7 * i) →
    read_unsigned_varint_go bs i result (7 * i) =
      .ok (result + varintPayload bs % 2 ^ (32 - 7 * i) * 2 ^ (7 * i)) := by
  induction bs with
  | nil => intro i result hchain _ _; simp [isChain] at hchain
  | cons b rest ih =>
    intro i result hchain hlen hres
    rcases rest with _ | ⟨r, rs⟩
    · have hb : b < 128 := by simpa [isChain] using hchain
      have hz : b &&& 128 = 0 := and_128_of_lt hb
      have hi4 : i ≤ 4 := by
        simp only [List.length_cons, List.length_nil] at hlen
        omega
      rw [ruv_go_cons, if_neg (by simp [hz]), if_pos hz, step_value hi4 hres]
      simp [varintPayload]
    · have hsplit : (128 ≤ b ∧ b < 256) ∧ isChain (r :: rs) = true := by
        have hh : (decide (128 ≤ b) && decide (b < 256) && isChain (r :: rs)) = true := hchain
        simpa using hh
      have hchain2 : isChain (r :: rs) = true := hsplit.2
      have hb1 : 128 ≤ b := hsplit.1.1
      have hb2 : b < 256 := hsplit.1.2
      have hi3 : i ≤ 3 := by
        simp only [List.length_cons] at hlen
        omega
      have hnz : b &&& 128 ≠ 0 := by rw [and_128_of_ge hb1 hb2]; omega
      rw [ruv_go_cons,
        if_neg (by intro hc; exact absurd hc.1 (by omega)),
        if_neg hnz, if_pos (show i + 1 < 5 by omega),
        step_value (by omega) hres]
      have hsmall : b % 128 % 2 ^ (32 - 7 * i) = b % 128 := by
        have h1 : b % 128 < 128 := Nat.mod_lt _ (by norm_num)
        have h2 : (128 : Nat) ≤ 2 ^ (32 - 7 * i) := by
          calc (128 : Nat) = 2 ^ 7 := by norm_num
          _ ≤ 2 ^ (32 - 7 * i) := Nat.pow_le_pow_right (by norm_num) (by omega)
        exact Nat.mod_eq_of_lt (by omega)
      rw [hsmall]
      have hres2 : result + b % 128 * 2 ^ (7 * i) < 2 ^ (7 * (i + 1)) := by
        have he : (2 : Nat) ^ (7 * (i + 1)) = 2 ^ (7 * i) * 128 := by
          rw [show 7 * (i + 1) = 7 * i + 7 by ring, pow_add]; norm_num
        have hb128 : b % 128 * 2 ^ (7 * i) ≤ 127 * 2 ^ (7 * i) :=
          Nat.mul_le_mul_right _ (by omega)
        rw [he]
        omega
      have h77 : 7 * i + 7 = 7 * (i + 1) := by ring
      rw [h77, ih (i + 1) (result + b % 128 * 2 ^ (7 * i)) hchain2 (by
        simp only [List.length_cons] at hlen ⊢
        omega) hres2]
      have e1 : 32 - 7 * (i + 1) = 25 - 7 * i := by omega
      have e2 : (2 : Nat) ^ (7 * (i + 1)) = 2 ^ (7 * i) * 128 := by
        rw [show 7 * (i + 1) = 7 * i + 7 by ring, pow_add]; norm_num
      have e3 : (2 : Nat) ^ (32 - 7 * i) = 128 * 2 ^ (25 - 7 * i) := by
        rw [show 32 - 7 * i = 7 + (25 - 7 * i) by omega, pow_add]; norm_num
      have hpl : varintPayload (b :: r :: rs) =
          b % 128 + 128 * varintPayload (r :: rs) := rfl
      rw [hpl, e1, e2, e3,
        mod_mul_split (by omega) (Nat.two_pow_pos _)]
      congr 1
      ring

/-- Decoding a well-formed chain of at most 5 bytes succeeds and returns
the payload reduced modulo 2^32. -/
lemma read_chain (bs : List Nat) (hchain : isChain bs = true) (hlen : bs.length ≤ 5) :
    read_unsigned_varint bs = .ok (varintPayload bs % 2 ^ 32) := by
  have := ruv_go_ok bs 0 0 hchain (by omega) (by norm_num)
  simpa [read_unsigned_varint] using this

/-- Round trip through the 64-bit (while-loop) encoder for values below
2^35, in particular all u32 values. -/
lemma unsigned_round_trip64enc {v : Nat} (hv : v < 2 ^ 35) :
    read_unsigned_varint (write_unsigned_varint64 v) = .ok (v % 2 ^ 32) := by
  have hlen : (write_unsigned_varint64 v).length ≤ 5 :=
    write64_length_min v 5 (by norm_num) (by norm_num; omega)
  rw [read_chain _ (write64_isChain v) hlen, write64_payload]

/-- Round trip of the 32-bit encoder/decoder pair for all u32 values. -/
lemma unsigned_round_trip {v : Nat} (hv : v < 2 ^ 32) :
    read_unsigned_varint (write_unsigned_varint v) = .ok v := by
  rw [write32_eq_write64 hv, unsigned_round_trip64enc (by omega),
    Nat.mod_eq_of_lt hv]

/-! ### Zig-zag mapping -/

lemma toN32_nonneg {v : Int} (h0 : 0 ≤ v) (h31 : v < 2 ^ 31) : toN32 v = v.toNat := by
  unfold toN32
  have hmod : v % (2 ^ 32 : Int) = v := Int.emod_eq_of_lt h0 (by omega)
  rw [hmod]

lemma toN32_neg {v : Int} (hneg : v < 0) (hlow : -2 ^ 31 ≤ v) :
    (toN32 v : Int) = v + 2 ^ 32 := by
  unfold toN32
  have hmod : v % (2 ^ 32 : Int) = v + 2 ^ 32 := by omega
  rw [hmod, Int.toNat_of_nonneg (by omega)]

lemma zigzag_encode_nonneg {v : Int} (h0 : 0 ≤ v) (h31 : v < 2 ^ 31) :
    zigzag_encode v = 2 * v.toNat := by
  unfold zigzag_encode
  rw [toN32_nonneg h0 h31, if_neg (by omega), Nat.xor_zero, Nat.shiftLeft_eq]
  have ht : v.toNat < 2 ^ 31 := by omega
  omega

lemma zigzag_encode_neg {v : Int} (hneg : v < 0) (hlow : -2 ^ 31 ≤ v) :
    zigzag_encode v = 2 * (-v).toNat - 1 := by
  unfold zigzag_encode
  rw [if_pos hneg, Nat.shiftLeft_eq]
  have hN : (toN32 v : Int) = v + 2 ^ 32 := toN32_neg hneg hlow
  have hlo : 2 ^ 31 ≤ toN32 v := by omega
  have hhi : toN32 v < 2 ^ 32 := by omega
  have hmod : toN32 v * 2 % 2 ^ 32 = 2 * toN32 v - 2 ^ 32 := by omega
  rw [hmod, xor_allones (show 2 * toN32 v - 2 ^ 32 < 2 ^ 32 by omega)]
  omega

lemma zigzag_encode_lt (v : Int) : zigzag_encode v < 2 ^ 32 := by
  unfold zigzag_encode
  apply Nat.xor_lt_two_pow
  · exact Nat.mod_lt _ (by norm_num)
  · split <;> norm_num

lemma zigzag_decode_even (m : Nat) (hm : m < 2 ^ 31) : zigzag_decode (2 * m) = (m : Int) := by
  unfold zigzag_decode
  have h1 : 2 * m &&& 1 = 0 := by rw [Nat.and_one_is_mod]; omega
  have h2 : (2 * m) >>> 1 = m := by rw [Nat.shiftRight_eq_div_pow]; omega
  rw [h2, if_pos h1, Nat.xor_zero]
  unfold toI32
  rw [if_pos hm]

lemma zigzag_decode_odd (m : Nat) (hm : m < 2 ^ 31) :
    zigzag_decode (2 * m + 1) = -(m + 1 : Int) := by
  unfold zigzag_decode
  have h1 : ¬(2 * m + 1 &&& 1 = 0) := by rw [Nat.and_one_is_mod]; omega
  have h2 : (2 * m + 1) >>> 1 = m := by rw [Nat.shiftRight_eq_div_pow]; omega
  rw [h2, if_neg h1, xor_allones (show m < 2 ^ 32 by omega)]
  unfold toI32
  rw [if_neg (by omega)]
  omega

lemma zigzag_round_trip {v : Int} (hlo : -2 ^ 31 ≤ v) (hhi : v < 2 ^ 31) :
    zigzag_decode (zigzag_encode v) = v := by
  by_cases h0 : 0 ≤ v
  · rw [zigzag_encode_nonneg h0 hhi, zigzag_decode_even _ (by omega)]
    omega
  · have hneg : v < 0 := by omega
    rw [zigzag_encode_neg hneg hlo]
    have hsplit : 2 * (-v).toNat - 1 = 2 * ((-v).toNat - 1) + 1 := by omega
    rw [hsplit, zigzag_decode_odd _ (by omega)]
    omega

/-- Signed round trip: write_varint then read_varint restores any i32. -/
lemma signed_round_trip {v : Int} (hlo : -2 ^ 31 ≤ v) (hhi : v < 2 ^ 31) :
    read_varint (write_varint v) = .ok v := by
  unfold read_varint write_varint
  rw [unsigned_round_trip (zigzag_encode_lt v)]
  simp only [Except.map]
  rw [zigzag_round_trip hlo hhi]

/-! ### Error behaviour: overlong and truncated inputs -/

lemma overlong32 (b0 b1 b2 b3 b4 : Nat) (rest : List Nat)
    (h0 : b0 &&& 128 ≠ 0) (h1 : b1 &&& 128 ≠ 0) (h2 : b2 &&& 128 ≠ 0)
    (h3 : b3 &&& 128 ≠ 0) (h4 : b4 &&& 128 ≠ 0) :
    read_unsigned_varint (b0 :: b1 :: b2 :: b3 :: b4 :: rest) =
      .error .varintTooLong := by
  unfold read_unsigned_varint
  rw [ruv_go_cons, if_neg (by rintro ⟨hc, _⟩; exact absurd hc (by norm_num)),
    if_neg h0, if_pos (by norm_num),
    ruv_go_cons, if_neg (by rintro ⟨hc, _⟩; exact absurd hc (by norm_num)),
    if_neg h1, if_pos (by norm_num),
    ruv_go_cons, if_neg (by rintro ⟨hc, _⟩; exact absurd hc (by norm_num)),
    if_neg h2, if_pos (by norm_num),
    ruv_go_cons, if_neg (by rintro ⟨hc, _⟩; exact absurd hc (by norm_num)),
    if_neg h3, if_pos (by norm_num),
    ruv_go_cons, if_pos ⟨by norm_num, h4⟩]

lemma overlong64 (b0 b1 b2 b3 b4 b5 b6 b7 b8 b9 : Nat) (rest : List Nat)
    (h0 : b0 &&& 128 ≠ 0) (h1 : b1 &&& 128 ≠ 0) (h2 : b2 &&& 128 ≠ 0)
    (h3 : b3 &&& 128 ≠ 0) (h4 : b4 &&& 128 ≠ 0) (h5 : b5 &&& 128 ≠ 0)
    (h6 : b6 &&& 128 ≠ 0) (h7 : b7 &&& 128 ≠ 0) (h8 : b8 &&& 128 ≠ 0)
    (h9 : b9 &&& 128 ≠ 0) :
    read_unsigned_varint64
        (b0 :: b1 :: b2 :: b3 :: b4 :: b5 :: b6 :: b7 :: b8 :: b9 :: rest) =
      .error .varintTooLong := by
  unfold read_unsigned_varint64
  rw [ruv64_go_cons, if_neg (by rintro ⟨hc, _⟩; exact absurd hc (by norm_num)),
    if_neg h0, if_pos (by norm_num),
    ruv64_go_cons, if_neg (by rintro ⟨hc, _⟩; exact absurd hc (by norm_num)),
    if_neg h1, if_pos (by norm_num),
    ruv64_go_cons, if_neg (by rintro ⟨hc, _⟩; exact absurd hc (by norm_num)),
    if_neg h2, if_pos (by norm_num),
    ruv64_go_cons, if_neg (by rintro ⟨hc, _⟩; exact absurd hc (by norm_num)),
    if_neg h3, if_pos (by norm_num),
    ruv64_go_cons, if_neg (by rintro ⟨hc, _⟩; exact absurd hc (by norm_num)),
    if_neg h4, if_pos (by norm_num),
    ruv64_go_cons, if_neg (by rintro ⟨hc, _⟩; exact absurd hc (by norm_num)),
    if_neg h5, if_pos (by norm_num),
    ruv64_go_cons, if_neg (by rintro ⟨hc, _⟩; exact absurd hc (by norm_num)),
    if_neg h6, if_pos (by norm_num),
    ruv64_go_cons, if_neg (by rintro ⟨hc, _⟩; exact absurd hc (by norm_num)),
    if_neg h7, if_pos (by norm_num),
    ruv64_go_cons, if_neg (by rintro ⟨hc, _⟩; exact absurd hc (by norm_num)),
    if_neg h8, if_pos (by norm_num),
    ruv64_go_cons, if_pos ⟨by norm_num, h9⟩]

lemma trunc_go32 (bs : List Nat) : ∀ i result shift,
    (∀ b ∈ bs, b &&& 128 ≠ 0) → bs.length + i < 5 →
    read_unsigned_varint_go bs i result shift = .error .ioErr := by
  induction bs with
  | nil => intro i result shift _ _; rfl
  | cons b rest ih =>
    intro i result shift hall hlen
    have hb := hall b (by simp)
    have hi : i ≤ 3 := by simp only [List.length_cons] at hlen; omega
    rw [ruv_go_cons, if_neg (by rintro ⟨hc, _⟩; omega), if_neg hb,
      if_pos (by omega)]
    refine ih (i + 1) _ _ (fun x hx => hall x (by simp [hx])) ?_
    simp only [List.length_cons] at hlen ⊢
    omega

lemma trunc_go64 (bs : List Nat) : ∀ i result shift,
    (∀ b ∈ bs, b &&& 128 ≠ 0) → bs.length + i < 10 →
    read_unsigned_varint64_go bs i result shift = .error .ioErr := by
  induction bs with
  | nil => intro i result shift _ _; rfl
  | cons b rest ih =>
    intro i result shift hall hlen
    have hb := hall b (by simp)
    have hi : i ≤ 8 := by simp only [List.length_cons] at hlen; omega
    rw [ruv64_go_cons, if_neg (by rintro ⟨hc, _⟩; omega), if_neg hb,
      if_pos (by omega)]
    refine ih (i + 1) _ _ (fun x hx => hall x (by simp [hx])) ?_
    simp only [List.length_cons] at hlen ⊢
    omega

lemma truncated32 (bs : List Nat) (hall : ∀ b ∈ bs, b &&& 128 ≠ 0)
    (hlen : bs.length < 5) : read_unsigned_varint bs = .error .ioErr :=
  trunc_go32 bs 0 0 0 hall (by omega)

lemma truncated64 (bs : List Nat) (hall : ∀ b ∈ bs, b &&& 128 ≠ 0)
    (hlen : bs.length < 10) : read_unsigned_varint64 bs = .error .ioErr :=
  trunc_go64 bs 0 0 0 hall (by omega)

/-! ### Fixed-width accessors: panic conditions -/

lemma read_unsigned_int_panic_iff (src : List Nat) :
    read_unsigned_int src = .panic ↔ src.length < 4 := by
  rcases src with _ | ⟨a, _ | ⟨b, _ | ⟨c, _ | ⟨d, t⟩⟩⟩⟩ <;>
    simp [read_unsigned_int]

lemma read_unsigned_int_at_panic_iff (buffer : List Nat) (index : Nat) :
    read_unsigned_int_at buffer index = .panic ↔ buffer.length < index + 4 := by
  unfold read_unsigned_int_at
  split <;> rename_i h <;> simp <;> omega

lemma write_unsigned_int_at_panic_iff (buffer : List Nat) (index value : Nat) :
    write_unsigned_int_at buffer index value = .panic ↔ buffer.length < index + 4 := by
  unfold write_unsigned_int_at
  split <;> rename_i h <;> simp <;> omega

/-! ### Claim theorems -/

/-- C1: for every unsigned 32-bit value v, read_unsigned_varint applied to
the bytes written by write_unsigned_varint v returns Ok v. -/
theorem C1_unsigned_varint_round_trip (v : Nat) (hv : v < 2 ^ 32) :
    read_unsigned_varint (write_unsigned_varint v) = .ok v :=
  unsigned_round_trip hv

/-- Witness for C1 at v = 300. -/
theorem C1_unsigned_varint_round_trip_witness :
    read_unsigned_varint (write_unsigned_varint 300) = .ok 300 :=
  C1_unsigned_varint_round_trip 300 (by norm_num)

/-- C2: for every signed 32-bit value v (including i32::MIN and i32::MAX),
read_varint applied to the bytes written by write_varint v returns Ok v. -/
theorem C2_signed_varint_round_trip (v : Int) (hlo : -2 ^ 31 ≤ v) (hhi : v < 2 ^ 31) :
    read_varint (write_varint v) = .ok v :=
  signed_round_trip hlo hhi

/-- Witness for C2 at i32::MIN and i32::MAX. -/
theorem C2_signed_varint_round_trip_witness :
    read_varint (write_varint (-2 ^ 31)) = .ok (-2 ^ 31) ∧
      read_varint (write_varint (2 ^ 31 - 1)) = .ok (2 ^ 31 - 1) :=
  ⟨C2_signed_varint_round_trip (-2 ^ 31) (by norm_num) (by norm_num),
    C2_signed_varint_round_trip (2 ^ 31 - 1) (by norm_num) (by norm_num)⟩

/-- C3: the 32-bit decoder fails with VarintTooLong on any input whose first
five bytes all have the continuation bit set, and the 64-bit decoder fails
with VarintTooLong on any input whose first ten bytes all have the
continuation bit set; the error is raised at the final allowed byte and no
value is returned. -/
theorem C3_overlong_rejection :
    (∀ b0 b1 b2 b3 b4 : Nat, ∀ rest : List Nat,
      b0 &&& 128 ≠ 0 → b1 &&& 128 ≠ 0 → b2 &&& 128 ≠ 0 → b3 &&& 128 ≠ 0 →
      b4 &&& 128 ≠ 0 →
      read_unsigned_varint (b0 :: b1 :: b2 :: b3 :: b4 :: rest) =
        .error .varintTooLong) ∧
    (∀ b0 b1 b2 b3 b4 b5 b6 b7 b8 b9 : Nat, ∀ rest : List Nat,
      b0 &&& 128 ≠ 0 → b1 &&& 128 ≠ 0 → b2 &&& 128 ≠ 0 → b3 &&& 128 ≠ 0 →
      b4 &&& 128 ≠ 0 → b5 &&& 128 ≠ 0 → b6 &&& 128 ≠ 0 → b7 &&& 128 ≠ 0 →
      b8 &&& 128 ≠ 0 → b9 &&& 128 ≠ 0 →
      read_unsigned_varint64
          (b0 :: b1 :: b2 :: b3 :: b4 :: b5 :: b6 :: b7 :: b8 :: b9 :: rest) =
        .error .varintTooLong) :=
  ⟨overlong32, overlong64⟩

/-- Witness for C3 on all-0xFF inputs. -/
theorem C3_overlong_rejection_witness :
    read_unsigned_varint [255, 255, 255, 255, 255] = .error .varintTooLong ∧
      read_unsigned_varint64 [255, 255, 255, 255, 255, 255, 255, 255, 255, 255] =
        .error .varintTooLong :=
  ⟨C3_overlong_rejection.1 255 255 255 255 255 [] (by decide) (by decide)
      (by decide) (by decide) (by decide),
    C3_overlong_rejection.2 255 255 255 255 255 255 255 255 255 255 []
      (by decide) (by decide) (by decide) (by decide) (by decide) (by decide)
      (by decide) (by decide) (by decide) (by decide)⟩

/-- C4: for every u32 (resp. u64) value v, the encoder output length is
positive, v fits in 7 bits per emitted byte (v < 2^(7 len)), and the length
is minimal among all positive byte counts k with v < 2^(7 k): the encoding
is canonical. -/
theorem C4_canonical_minimality :
    (∀ v : Nat, v < 2 ^ 32 → 0 < (write_unsigned_varint v).length ∧
      v < 2 ^ (7 * (write_unsigned_varint v).length) ∧
      ∀ k, 0 < k → v < 2 ^ (7 * k) → (write_unsigned_varint v).length ≤ k) ∧
    (∀ v : Nat, v < 2 ^ 64 → 0 < (write_unsigned_varint64 v).length ∧
      v < 2 ^ (7 * (write_unsigned_varint64 v).length) ∧
      ∀ k, 0 < k → v < 2 ^ (7 * k) → (write_unsigned_varint64 v).length ≤ k) := by
  constructor
  · intro v hv
    rw [write32_eq_write64 hv]
    exact ⟨write64_length_pos v, write64_length_fits v, write64_length_min v⟩
  · intro v _
    exact ⟨write64_length_pos v, write64_length_fits v, write64_length_min v⟩

/-- Witness for C4 at v = 300 (a two-byte value). -/
theorem C4_canonical_minimality_witness :
    (write_unsigned_varint 300).length ≤ 2 ∧
      300 < 2 ^ (7 * (write_unsigned_varint 300).length) := by
  have h := C4_canonical_minimality.1 300 (by norm_num)
  exact ⟨h.2.2 2 (by norm_num) (by norm_num), h.2.1⟩

/-- C5: the encoders produce exactly the literal wire bytes from the spec:
300 -> AC 02; zig-zag -1 -> 01, 1 -> 02, -2 -> 03; i32::MAX as u32 ->
FF FF FF FF 07. -/
theorem C5_literal_vectors :
    write_unsigned_varint 300 = [0xAC, 0x02] ∧ write_varint (-1) = [0x01] ∧
      write_varint 1 = [0x02] ∧ write_varint (-2) = [0x03] ∧
      write_unsigned_varint (2 ^ 31 - 1) = [0xFF, 0xFF, 0xFF, 0xFF, 0x07] :=
  ⟨by decide, by decide, by decide, by decide, by decide⟩

/-- C6 counterexample: on a 3-byte buffer every fixed-width accessor panics
(aborts the program) instead of returning a structured ShortRead/OutOfRange
error, contradicting the claim that none of these operations can terminate
the program. -/
theorem C6_fixed_width_counterexample :
    read_unsigned_int [0, 0, 0] = .panic ∧
      read_unsigned_int_at [0, 0, 0] 0 = .panic ∧
      write_unsigned_int_at [0, 0, 0] 0 1 = .panic := by
  refine ⟨rfl, by decide, by decide⟩

/-- C6 amended: the fixed-width accessors abort (panic) exactly when the
data does not fit, rather than returning a structured error:
read_unsigned_int panics iff fewer than 4 bytes are available, and
read_unsigned_int_at / write_unsigned_int_at panic iff
offset + 4 > buffer.length. -/
theorem C6_fixed_width_panics :
    (∀ src : List Nat, read_unsigned_int src = .panic ↔ src.length < 4) ∧
      (∀ buffer : List Nat, ∀ index : Nat,
        read_unsigned_int_at buffer index = .panic ↔ buffer.length < index + 4) ∧
      (∀ buffer : List Nat, ∀ index value : Nat,
        write_unsigned_int_at buffer index value = .panic ↔
          buffer.length < index + 4) :=
  ⟨read_unsigned_int_panic_iff, read_unsigned_int_at_panic_iff,
    write_unsigned_int_at_panic_iff⟩

/-- C7: the decoder accepts any well-formed continuation chain of at most
5 bytes, minimal or not, and returns the value its 7-bit payload groups
spell out (whenever that value is a u32). -/
theorem C7_nonminimal_accepted (bs : List Nat) (hchain : isChain bs = true)
    (hlen : bs.length ≤ 5) (hpay : varintPayload bs < 2 ^ 32) :
    read_unsigned_varint bs = .ok (varintPayload bs) := by
  rw [read_chain bs hchain hlen, Nat.mod_eq_of_lt hpay]

/-- Witness for C7: the non-minimal encoding [0x80, 0x00] of 0 decodes to 0. -/
theorem C7_nonminimal_accepted_witness :
    read_unsigned_varint [128, 0] = .ok 0 := by
  have h := C7_nonminimal_accepted [128, 0] (by decide) (by decide) (by decide)
  have hp : varintPayload [128, 0] = 0 := by decide
  rw [hp] at h
  exact h

/-- C8: write_varint decomposes as the zig-zag map followed by
write_unsigned_varint, and the zig-zag map sends 0, -1, 1, -2, 2 to
0, 1, 2, 3, 4 respectively. -/
theorem C8_zigzag_decomposition :
    (∀ v : Int, -2 ^ 31 ≤ v → v < 2 ^ 31 →
      write_varint v = write_unsigned_varint (zigzag_encode v)) ∧
      zigzag_encode 0 = 0 ∧ zigzag_encode (-1) = 1 ∧ zigzag_encode 1 = 2 ∧
      zigzag_encode (-2) = 3 ∧ zigzag_encode 2 = 4 :=
  ⟨fun _ _ _ => rfl, by decide, by decide, by decide, by decide, by decide⟩

/-- Witness for C8 at v = -2. -/
theorem C8_zigzag_decomposition_witness :
    write_varint (-2) = write_unsigned_varint (zigzag_encode (-2)) ∧
      zigzag_encode (-2) = 3 :=
  ⟨C8_zigzag_decomposition.1 (-2) (by norm_num) (by norm_num),
    C8_zigzag_decomposition.2.2.2.2.1⟩

/-- C9: when the byte source is exhausted while every supplied byte has the
continuation bit set and fewer than the maximum allowed bytes were
supplied, both decoders fail with the propagated I/O error and never
return a value. -/
theorem C9_truncated_input :
    (∀ bs : List Nat, (∀ b ∈ bs, b &&& 128 ≠ 0) → bs.length < 5 →
      read_unsigned_varint bs = .error .ioErr) ∧
    (∀ bs : List Nat, (∀ b ∈ bs, b &&& 128 ≠ 0) → bs.length < 10 →
      read_unsigned_varint64 bs = .error .ioErr) :=
  ⟨truncated32, truncated64⟩

/-- Witness for C9 on truncated all-0xFF inputs. -/
theorem C9_truncated_input_witness :
    read_unsigned_varint [255, 255] = .error .ioErr ∧
      read_unsigned_varint64 [255] = .error .ioErr :=
  ⟨C9_truncated_input.1 [255, 255] (by decide) (by decide),
    C9_truncated_input.2 [255] (by decide) (by decide)⟩

/-- C10: a well-formed 5-byte sequence whose payload is at least 2^32
(bytes 1..4 with continuation set, byte 5 clear) is not rejected by the
32-bit decoder: it returns Ok with the payload reduced modulo 2^32, the
high payload bits of the 5th byte being discarded by the u32 shift. -/
theorem C10_payload_mod_2_32 (b0 b1 b2 b3 b4 : Nat)
    (h0a : 128 ≤ b0) (h0b : b0 < 256) (h1a : 128 ≤ b1) (h1b : b1 < 256)
    (h2a : 128 ≤ b2) (h2b : b2 < 256) (h3a : 128 ≤ b3) (h3b : b3 < 256)
    (h4 : b4 < 128) (hpay : 2 ^ 32 ≤ varintPayload [b0, b1, b2, b3, b4]) :
    read_unsigned_varint [b0, b1, b2, b3, b4] =
      .ok (varintPayload [b0, b1, b2, b3, b4] % 2 ^ 32) := by
  apply read_chain
  · simp [isChain]
    omega
  · simp

/-- Witness for C10: [0x80, 0x80, 0x80, 0x80, 0x10] has payload 2^32 and
decodes to Ok 0. -/
theorem C10_payload_mod_2_32_witness :
    read_unsigned_varint [128, 128, 128, 128, 16] = .ok 0 := by
  have h := C10_payload_mod_2_32 128 128 128 128 16 (by norm_num) (by norm_num)
    (by norm_num) (by norm_num) (by norm_num) (by norm_num) (by norm_num)
    (by norm_num) (by norm_num) (by decide)
  have hp : varintPayload [128, 128, 128, 128, 16] % 2 ^ 32 = 0 := by decide
  rw [hp] at h
  exact h

end Rafka
